import Mathlib

/-!
Formal model of the position ledger, indicator library and risk assessment
engine of the Pythagorean perpetual-futures autonomous agent repository.

The trading engine (`TradingEngine` in `src/server.js`) and the risk manager
(`RiskManager` in the risk-management source file) are embedded shallowly:

* JavaScript numbers are modelled as exact rationals.  Code paths on which
  the JavaScript semantics of `NaN` and `Infinity` is observable (empty-list
  averages, `Math.max()` of an empty list, division by zero) are modelled
  with the type `JNum` below, which adjoins `nan` and signed infinities to
  the rationals and implements the IEEE behaviour of the operations that the
  source actually performs on such values.
* The path through `Math.sqrt` (z-score, correlation) is modelled with the
  type `JR`, which adjoins `nan` and signed infinities to the real numbers.
* JavaScript `Map`s keyed by asset name are modelled as association lists in
  insertion order, with `Map.set` replacing an existing binding in place.
* Stateful methods become pure functions from state to state; the events
  (position opened / closed notifications) emitted by a run are collected in
  a trace list.
-/

attribute [local semireducible] Rat.add Rat.mul Rat.inv Rat.sub

/-- A JavaScript number as observed on the rational code paths of the
engine: either `NaN`, a signed infinity (`inf true` is `+Infinity`,
`inf false` is `-Infinity`), or a finite value, kept as an exact rational. -/
inductive JNum where
  | nan : JNum
  | inf : Bool → JNum
  | fin : ℚ → JNum
deriving DecidableEq

/-- JavaScript addition on `JNum` (the IEEE rules the source can hit):
`NaN` propagates, opposite infinities give `NaN`, an infinity absorbs a
finite value. -/
def jadd : JNum → JNum → JNum
  | .nan, _ => .nan
  | _, .nan => .nan
  | .inf s, .inf t => if s = t then .inf s else .nan
  | .inf s, .fin _ => .inf s
  | .fin _, .inf s => .inf s
  | .fin a, .fin b => .fin (a + b)

/-- JavaScript subtraction on `JNum`. -/
def jsub : JNum → JNum → JNum
  | .nan, _ => .nan
  | _, .nan => .nan
  | .inf s, .inf t => if s = t then .nan else .inf s
  | .inf s, .fin _ => .inf s
  | .fin _, .inf s => .inf (!s)
  | .fin a, .fin b => .fin (a - b)

/-- JavaScript multiplication on `JNum`: `NaN` propagates, an infinity times
zero is `NaN`, otherwise signs multiply. -/
def jmul : JNum → JNum → JNum
  | .nan, _ => .nan
  | _, .nan => .nan
  | .inf s, .inf t => .inf (s == t)
  | .inf s, .fin q => if q = 0 then .nan else .inf (s == decide (0 < q))
  | .fin q, .inf s => if q = 0 then .nan else .inf (s == decide (0 < q))
  | .fin a, .fin b => .fin (a * b)

/-- JavaScript division on `JNum`.  Finite denominators are modelled as
`+0`, which is the only zero the source produces, so `x / 0` is `+Infinity`,
`-Infinity` or `NaN` according to the sign of `x`. -/
def jdiv : JNum → JNum → JNum
  | .nan, _ => .nan
  | _, .nan => .nan
  | .inf _, .inf _ => .nan
  | .inf s, .fin q => if q < 0 then .inf (!s) else .inf s
  | .fin _, .inf _ => .fin 0
  | .fin a, .fin b =>
      if b = 0 then
        if a = 0 then .nan else if 0 < a then .inf true else .inf false
      else .fin (a / b)

/-- JavaScript `Math.min` on `JNum`: `NaN` wins, then `-Infinity`. -/
def jmin : JNum → JNum → JNum
  | .nan, _ => .nan
  | _, .nan => .nan
  | .inf false, _ => .inf false
  | _, .inf false => .inf false
  | .inf true, y => y
  | x, .inf true => x
  | .fin a, .fin b => .fin (min a b)

/-- JavaScript `x > q` for a `JNum` `x` and a finite rational bound:
false for `NaN`, true for `+Infinity`. -/
def jgtQ (x : JNum) (q : ℚ) : Bool :=
  match x with
  | .nan => false
  | .inf s => s
  | .fin a => q < a

/-- JavaScript `x < q` for a `JNum` `x` and a finite rational bound:
false for `NaN`, true for `-Infinity`. -/
def jltQ (x : JNum) (q : ℚ) : Bool :=
  match x with
  | .nan => false
  | .inf s => !s
  | .fin a => a < q

/-- JavaScript `Math.max(...values)` over a list of finite values: the
maximum, or `-Infinity` when the list is empty. -/
def jmaxList : List ℚ → JNum
  | [] => .inf false
  | x :: xs => .fin (xs.foldl max x)

/-- Whether a `JNum` is a finite value in the interval `[0, 100]`;
`NaN` and the infinities are not. -/
def jIn0to100 (x : JNum) : Bool :=
  match x with
  | .fin q => decide (0 ≤ q ∧ q ≤ 100)
  | _ => false

/-- `calculateAverage` from `src/server.js`:
`values.reduce((sum, val) => sum + val, 0) / values.length`.
On an empty list this is the JavaScript `0 / 0`, that is `NaN`. -/
def calculateAverage (values : List ℚ) : JNum :=
  if values.length = 0 then .nan else .fin (values.sum / values.length)

/-- The last `period` price changes examined by `calculateRSI` in
`src/server.js`: entry `j` is
`history[len - (j+1)].price - history[len - (j+2)].price`
(the loop variable `i` of the source is `j + 1`). -/
def rsiChanges (history : List ℚ) (period : ℕ) : List ℚ :=
  (List.range period).map fun j =>
    history.getD (history.length - (j + 1)) 0 - history.getD (history.length - (j + 2)) 0

/-- `calculateRSI` from `src/server.js`: neutral `50` below `period + 1`
samples; positive changes are collected as gains and the other changes,
negated, as losses; then `100` when the average loss is (exactly) `0`, else
`100 - 100 / (1 + avgGain / avgLoss)`, computed with JavaScript number
semantics (so an empty gain or loss list makes the corresponding average
`NaN`). -/
def calculateRSI (history : List ℚ) (period : ℕ := 14) : JNum :=
  if history.length < period + 1 then .fin 50
  else
    let changes := rsiChanges history period
    let gains := changes.filter fun c => 0 < c
    let losses := (changes.filter fun c => ¬ 0 < c).map fun c => -c
    let avgGain := calculateAverage gains
    let avgLoss := calculateAverage losses
    if avgLoss = .fin 0 then .fin 100
    else jsub (.fin 100) (jdiv (.fin 100) (jadd (.fin 1) (jdiv avgGain avgLoss)))

/-- `calculateRiskScore` from the risk-management source: the four capped
components are accumulated and the sum is capped at `100`.  The divisions by
`totalValue` and the `Math.max` over the concentration fractions follow
JavaScript semantics, so an empty concentration map contributes
`Math.min(10, -Infinity * 40)`. -/
def calculateRiskScore (currentDrawdown dailyPnL portfolioVar totalValue : ℚ)
    (concentrationRisk : List ℚ) : JNum :=
  let s1 := jmin (.fin 40) (.fin (currentDrawdown * 200))
  let dailyLossPercent := jdiv (.fin |dailyPnL|) (.fin totalValue)
  let s2 := jmin (.fin 30) (jmul dailyLossPercent (.fin 300))
  let varPercent := jdiv (.fin portfolioVar) (.fin totalValue)
  let s3 := jmin (.fin 20) (jmul varPercent (.fin 200))
  let maxConcentration := jmaxList concentrationRisk
  let s4 := jmin (.fin 10) (jmul maxConcentration (.fin 40))
  jmin (.fin 100) (jadd (jadd (jadd s1 s2) s3) s4)

/-- The absolute losses extracted by `calculateVaR` in the risk-management
source: `pnlHistory.filter(pnl => pnl < 0).map(pnl => Math.abs(pnl))`. -/
def lossesOf (pnlHistory : List ℚ) : List ℚ :=
  (pnlHistory.filter fun x => x < 0).map fun x => |x|

/-- `calculateVaR` from the risk-management source: `0` below `30` samples
or with no losses; otherwise the entry at index
`Math.floor(losses.length * (1 - confidence))` of the ascending-sorted
absolute losses (`losses[index] || 0`, hence `0` when the index falls
outside the list). -/
def calculateVaR (pnlHistory : List ℚ) (confidence : ℚ := 19/20) : ℚ :=
  if pnlHistory.length < 30 then 0
  else
    let losses := lossesOf pnlHistory
    if losses.length = 0 then 0
    else
      let sorted := losses.insertionSort fun a b => a ≤ b
      let index : ℤ := Rat.floor ((losses.length : ℚ) * (1 - confidence))
      if index < 0 then 0 else sorted.getD index.toNat 0

/-- The body of `calculateDrawdown` in the risk-management source, as a
function of the portfolio-value list it reads: `0` for an empty list,
otherwise `(peak - current) / peak` with `current` the last recorded value
and `peak` the maximum of the list. -/
def calculateDrawdownValues : List ℚ → JNum
  | [] => .fin 0
  | x :: xs =>
      let peak := xs.foldl max x
      jdiv (.fin (peak - (x :: xs).getLastD 0)) (.fin peak)

/-- The history record of `RiskManager`: its constructor declares exactly
the fields `drawdowns`, `dailyLosses`, `varHistory` and `breaches` (each
a list of recorded values; we keep only the recorded numbers). -/
structure RMHistory where
  drawdowns : List ℚ
  dailyLosses : List ℚ
  varHistory : List ℚ
  breaches : List ℚ
deriving DecidableEq

/-- The list read by `RiskManager.calculateDrawdown` via
`this.history.portfolioValues || []`.  The history record declares no
`portfolioValues` field and no method of `RiskManager` ever assigns one
(`storeHistoricalData` pushes only to `drawdowns`, `dailyLosses` and
`varHistory`), so the property access always yields `undefined` and the
fallback `[]` is taken. -/
def rmPortfolioValues (_h : RMHistory) : List ℚ := []

/-- `RiskManager.calculateDrawdown` as executed: the drawdown of the
(always empty) recorded portfolio-value list. -/
def rmCalculateDrawdown (h : RMHistory) : JNum :=
  calculateDrawdownValues (rmPortfolioValues h)

/-- A JavaScript number on the code path through `Math.sqrt`: `NaN`, a
signed infinity, or a finite real value. -/
inductive JR where
  | nan : JR
  | inf : Bool → JR
  | fin : ℝ → JR

/-- JavaScript `Math.sqrt` applied to a finite rational: `NaN` for negative
arguments, otherwise the (exact) real square root. -/
noncomputable def jsqrtQ (q : ℚ) : JR :=
  if q < 0 then .nan else .fin (Real.sqrt q)

/-- JavaScript division on `JR`; finite zero denominators are `+0`, the
only zero the source produces. -/
noncomputable def jdivR : JR → JR → JR
  | .nan, _ => .nan
  | _, .nan => .nan
  | .inf _, .inf _ => .nan
  | .inf s, .fin q => if q < 0 then .inf (!s) else .inf s
  | .fin _, .inf _ => .fin 0
  | .fin a, .fin b =>
      if b = 0 then
        if a = 0 then .nan else if 0 < a then .inf true else .inf false
      else .fin (a / b)

/-- `calculateZScore` from `src/server.js`, as a function of the price list:
`0` below `20` samples; otherwise `(latest - mean) / stdev` over the last
`20` prices, where `stdev` is `Math.sqrt` of the average squared deviation
(`calculateStdDev` of the source) — in particular `0 / 0 = NaN` when the
last `20` prices are all equal.  The averages are written as plain rational
divisions because the averaged lists have exactly `20` entries here. -/
noncomputable def calculateZScore (history : List ℚ) : JR :=
  if history.length < 20 then .fin 0
  else
    let prices := history.drop (history.length - 20)
    let mean : ℚ := prices.sum / (prices.length : ℚ)
    let variance : ℚ := (prices.map fun v => (v - mean) ^ 2).sum / (prices.length : ℚ)
    let currentPrice : ℚ := prices.getLastD 0
    jdivR (.fin ((currentPrice : ℝ) - (mean : ℝ))) (jsqrtQ variance)

/-- `calculateReturns` from the risk-management source: simple returns of
consecutive prices, `(history[i].price - history[i-1].price) /
history[i-1].price`, with JavaScript division (a zero price yields an
infinity or `NaN`). -/
def calculateReturns (history : List ℚ) : List JNum :=
  (List.range (history.length - 1)).map fun i =>
    jdiv (.fin (history.getD (i + 1) 0 - history.getD i 0)) (.fin (history.getD i 0))

/-- The JavaScript average `list.reduce((a, b) => a + b, 0) / list.length`
over a list of already-computed JavaScript numbers (`0 / 0 = NaN` when the
list is empty). -/
def calculateAverageJ (l : List JNum) : JNum :=
  jdiv (l.foldl jadd (.fin 0)) (.fin (l.length : ℚ))

/-- Embedding of the rational `JNum` values into `JR`. -/
noncomputable def JNum.toJR : JNum → JR
  | .nan => .nan
  | .inf s => .inf s
  | .fin q => .fin (q : ℝ)

/-- JavaScript `Math.sqrt` on a `JNum` argument: `NaN` stays `NaN`,
`sqrt(+Infinity) = +Infinity`, `sqrt(-Infinity) = NaN`, and a finite
negative argument gives `NaN`. -/
noncomputable def jsqrtJ : JNum → JR
  | .nan => .nan
  | .inf s => if s then .inf true else .nan
  | .fin q => jsqrtQ q

/-- JavaScript `x > 0` on a `JR` value (false for `NaN`). -/
noncomputable def jrGtZero : JR → Bool
  | .nan => false
  | .inf s => s
  | .fin x => decide (0 < x)

/-- JavaScript `Math.abs(x) > q` on a `JR` value and a finite rational
limit (false for `NaN`, true for either infinity). -/
noncomputable def jrAbsGtQ : JR → ℚ → Bool
  | .nan, _ => false
  | .inf _, _ => true
  | .fin x, q => decide ((q : ℝ) < |x|)

/-- `calculateCorrelation` from the risk-management source: `0` when the
two histories differ in length, otherwise the Pearson correlation of the
simple-return series, `numerator / Math.sqrt(sumSq1 * sumSq2)`, with the
source's guard returning `0` unless the denominator is positive. -/
noncomputable def calculateCorrelation (history1 history2 : List ℚ) : JR :=
  if history1.length ≠ history2.length then .fin 0
  else
    let returns1 := calculateReturns history1
    let returns2 := calculateReturns history2
    let mean1 := calculateAverageJ returns1
    let mean2 := calculateAverageJ returns2
    let numerator :=
      (List.zipWith (fun a b => jmul (jsub a mean1) (jsub b mean2)) returns1 returns2).foldl
        jadd (.fin 0)
    let sumSq1 := (returns1.map fun a => jmul (jsub a mean1) (jsub a mean1)).foldl jadd (.fin 0)
    let sumSq2 := (returns2.map fun b => jmul (jsub b mean2) (jsub b mean2)).foldl jadd (.fin 0)
    let denominator := jsqrtJ (jmul sumSq1 sumSq2)
    if jrGtZero denominator then jdivR numerator.toJR denominator else .fin 0

/-- Position side, `'LONG'` or `'SHORT'` in the source. -/
inductive Side where
  | long : Side
  | short : Side
deriving DecidableEq

/-- A market-data snapshot as stored by `updateMarketData` and read by the
engine (`price`, `bid`, `ask`, `volume`; the timestamp carries no logic). -/
structure MarketSnap where
  price : ℚ
  bid : ℚ
  ask : ℚ
  volume : ℚ
deriving DecidableEq

/-- One entry of a per-asset price history: `{price, volume}` (the
timestamp carries no logic). -/
structure HistPoint where
  price : ℚ
  volume : ℚ
deriving DecidableEq

/-- An open position as stored in the `positions` map of `TradingEngine`.
A position in the map always has `status: 'OPEN'`; the `pnl`, `exitPrice`
and `exitTime` fields are only ever set on the archived copy produced by
`closePosition`, which this model reports through the event trace. -/
structure Position where
  asset : String
  side : Side
  size : ℚ
  entryPrice : ℚ
  stopLoss : ℚ
  takeProfit : ℚ
  fees : ℚ
deriving DecidableEq

/-- The trading parameters of `TradingEngine` (`this.params` plus the
engine fee constant). -/
structure Params where
  maxPositionSize : ℚ
  maxDrawdown : ℚ
  stopLossPercent : ℚ
  takeProfitPercent : ℚ
  leverage : ℚ
  minOrderSize : ℚ
  maxOrdersPerAsset : ℕ
deriving DecidableEq

/-- The default trading parameters (`config` fields absent). -/
def defaultParams : Params :=
  { maxPositionSize := 1/10
    maxDrawdown := 1/5
    stopLossPercent := 1/20
    takeProfitPercent := 1/10
    leverage := 1
    minOrderSize := 10
    maxOrdersPerAsset := 3 }

/-- Performance counters (`this.performance`).  `sharpe` models the
source's `sharpeRatio`, which `calculateSharpeRatio` always computes from
an empty return list and therefore always sets to `0`. -/
structure PerfStats where
  totalTrades : ℕ
  winningTrades : ℕ
  losingTrades : ℕ
  totalPnL : ℚ
  winRate : ℚ
  sharpe : ℚ
deriving DecidableEq

/-- The state of a `TradingEngine` instance: the open-position map (in
insertion order), the flattened `portfolio` record (`cash`, `marginUsed`,
`totalValue`, and the initially-absent `peakValue`), the market-data and
price-history maps, the (never written) `activeOrders` keys, and the
performance counters. -/
structure EngineState where
  positions : List Position
  cash : ℚ
  marginUsed : ℚ
  totalValue : ℚ
  peakValue : Option ℚ
  marketData : List (String × MarketSnap)
  priceHistory : List (String × List HistPoint)
  activeOrders : List String
  perf : PerfStats
deriving DecidableEq

/-- Lookup in an association list modelling `Map.get`. -/
def alGet {α : Type} (l : List (String × α)) (k : String) : Option α :=
  (l.find? fun e => e.1 = k).map fun e => e.2

/-- `Map.set` on an association list: replace the existing binding in
place, else append. -/
def alSet {α : Type} (l : List (String × α)) (k : String) (v : α) : List (String × α) :=
  if l.any fun e => e.1 = k then l.map fun e => if e.1 = k then (k, v) else e
  else l ++ [(k, v)]

/-- `this.positions.get(asset)`. -/
def posGet (ps : List Position) (asset : String) : Option Position :=
  ps.find? fun p => p.asset = asset

/-- `this.positions.set(asset, position)`: replace the open position for
the same asset in place, else append. -/
def posSet (ps : List Position) (p : Position) : List Position :=
  if ps.any fun q => q.asset = p.asset then ps.map fun q => if q.asset = p.asset then p else q
  else ps ++ [p]

/-- `calculateStopLoss`: the entry price minus (long) or plus (short)
`entryPrice * stopLossPercent`. -/
def calculateStopLoss (params : Params) (entryPrice : ℚ) (side : Side) : ℚ :=
  match side with
  | .long => entryPrice - entryPrice * params.stopLossPercent
  | .short => entryPrice + entryPrice * params.stopLossPercent

/-- `calculateTakeProfit`: the entry price plus (long) or minus (short)
`entryPrice * takeProfitPercent`. -/
def calculateTakeProfit (params : Params) (entryPrice : ℚ) (side : Side) : ℚ :=
  match side with
  | .long => entryPrice + entryPrice * params.takeProfitPercent
  | .short => entryPrice - entryPrice * params.takeProfitPercent

/-- `calculateFees`: `amount * 0.001`, the 0.1 % fee. -/
def calculateFees (amount : ℚ) : ℚ :=
  amount * (1/1000)

/-- `checkRiskLimits(asset, size)` from `src/server.js`, with the market
snapshot already looked up: the notional `size * price` must not exceed
`cash * maxPositionSize` nor push `marginUsed` beyond `cash * leverage`,
and the asset must have fewer than `maxOrdersPerAsset` active orders
(the `activeOrders` map is never written by the engine, so that count is
always `0`). -/
def checkRiskLimits (params : Params) (s : EngineState) (md : MarketSnap) (asset : String)
    (size : ℚ) : Bool :=
  let positionValue := size * md.price
  if s.cash * params.maxPositionSize < positionValue then false
  else if s.cash * params.leverage < s.marginUsed + positionValue then false
  else if params.maxOrdersPerAsset ≤ (s.activeOrders.filter fun o => o = asset).length then false
  else true

/-- `openPosition(asset, side, size)` from `src/server.js`.  Absent market
data makes `checkRiskLimits` throw, which the source catches and turns into
`null` with no state change.  Otherwise the open is rejected (`null`,
unchanged state) when `checkRiskLimits` fails or when the entry notional
exceeds the available cash; an accepted open stores the position (silently
replacing any open position of the same asset), debits `notional + fee`
from cash and adds the notional to `marginUsed`. -/
def openPosition (params : Params) (s : EngineState) (asset : String) (side : Side)
    (size : ℚ) : EngineState × Option Position :=
  match alGet s.marketData asset with
  | none => (s, none)
  | some md =>
      if ¬ checkRiskLimits params s md asset size then (s, none)
      else
        let entryPrice := match side with | .long => md.ask | .short => md.bid
        let positionValue := size * entryPrice
        if s.cash < positionValue then (s, none)
        else
          let p : Position :=
            { asset := asset
              side := side
              size := size
              entryPrice := entryPrice
              stopLoss := calculateStopLoss params entryPrice side
              takeProfit := calculateTakeProfit params entryPrice side
              fees := calculateFees positionValue }
          ({ s with
              positions := posSet s.positions p
              cash := s.cash - (positionValue + p.fees)
              marginUsed := s.marginUsed + positionValue }, some p)

/-- `calculateTotalValue` from `src/server.js`: cash plus
`size * current price` of every open position whose asset has market
data. -/
def calculateTotalValue (s : EngineState) : ℚ :=
  s.positions.foldl
    (fun acc p =>
      match alGet s.marketData p.asset with
      | some md => acc + p.size * md.price
      | none => acc)
    s.cash

/-- `updatePerformance(position)` from `src/server.js`, applied to the
realised pnl of a closed position: a trade with `pnl > 0` counts as
winning, every other trade as losing; `winRate = winningTrades /
totalTrades`; the simplified `calculateSharpeRatio` always returns `0`. -/
def updatePerformance (perf : PerfStats) (pnl : ℚ) : PerfStats :=
  let totalTrades := perf.totalTrades + 1
  let winningTrades := if 0 < pnl then perf.winningTrades + 1 else perf.winningTrades
  let losingTrades := if 0 < pnl then perf.losingTrades else perf.losingTrades + 1
  { totalTrades := totalTrades
    winningTrades := winningTrades
    losingTrades := losingTrades
    totalPnL := perf.totalPnL + pnl
    winRate := (winningTrades : ℚ) / (totalTrades : ℚ)
    sharpe := 0 }

/-- An event of the run trace: `opened notional fee` for each accepted
open, and `closed entryNotional exitValue fee pnl` for each completed
close, where `fee` is the `position.fees` amount the close deducts and
`pnl` is the archived `position.pnl`. -/
inductive Event where
  | opened (notional fee : ℚ)
  | closed (entryNotional exitValue fee pnl : ℚ)
deriving DecidableEq

/-- `closePosition(asset)` from `src/server.js`: `null` (no state change)
when no open position exists for the asset or when the absent market data
makes the exit-price read throw; otherwise the exit value is credited
net of `position.fees` (the fee computed at open), `marginUsed` drops by
the entry notional, `totalValue` is recomputed while the closing position
is still in the map, performance is updated with
`pnl = directional price delta * size - position.fees`, and the position
is removed. -/
def closePosition (s : EngineState) (asset : String) : EngineState × Option Event :=
  match posGet s.positions asset with
  | none => (s, none)
  | some p =>
      match alGet s.marketData asset with
      | none => (s, none)
      | some md =>
          let exitPrice := match p.side with | .long => md.bid | .short => md.ask
          let exitValue := p.size * exitPrice
          let pnl :=
            match p.side with
            | .long => exitValue - p.size * p.entryPrice
            | .short => p.size * p.entryPrice - exitValue
          let s1 := { s with
            cash := s.cash + (exitValue - p.fees)
            marginUsed := s.marginUsed - p.size * p.entryPrice }
          let s2 := { s1 with totalValue := calculateTotalValue s1 }
          let s3 := { s2 with perf := updatePerformance s2.perf (pnl - p.fees) }
          ({ s3 with positions := s3.positions.filter fun q => ¬ q.asset = asset },
           some (.closed (p.size * p.entryPrice) exitValue p.fees (pnl - p.fees)))

/-- `shouldClosePosition(asset, position)` from `src/server.js`: the
current price breaches the stop-loss or take-profit of the position
(long: `price ≤ stopLoss` or `price ≥ takeProfit`; short mirrored).
The `none` branch cannot be reached from a reachable engine state, where
every open position has market data. -/
def shouldClosePosition (s : EngineState) (p : Position) : Bool :=
  match alGet s.marketData p.asset with
  | none => false
  | some md =>
      match p.side with
      | .long => decide (md.price ≤ p.stopLoss) || decide (p.takeProfit ≤ md.price)
      | .short => decide (p.stopLoss ≤ md.price) || decide (md.price ≤ p.takeProfit)

/-- The cache refresh of `updateMarketData(asset, data)` from
`src/server.js`: overwrite the snapshot and append `{price, volume}` to the
(1000-capped, oldest-evicted) history. -/
def tickCache (s : EngineState) (asset : String) (md : MarketSnap) : EngineState :=
  let s1 := { s with marketData := alSet s.marketData asset md }
  let h := ((alGet s1.priceHistory asset).getD []) ++ [{ price := md.price, volume := md.volume }]
  let h1 := if 1000 < h.length then h.drop 1 else h
  { s1 with priceHistory := alSet s1.priceHistory asset h1 }

/-- The close check `updateMarketData` runs after refreshing the caches:
close the asset's open position if `shouldClosePosition` holds. -/
def updateMarketData (s : EngineState) (asset : String) (md : MarketSnap) :
    EngineState × Option Event :=
  let s2 := tickCache s asset md
  match posGet s2.positions asset with
  | none => (s2, none)
  | some p => if shouldClosePosition s2 p then closePosition s2 asset else (s2, none)

/-- The per-asset sweep of the engine's monitoring interval
(`checkPositionUpdates` over a snapshot of the position keys, closing
each position whose `shouldClosePosition` holds at the time it is
visited). -/
def monitorSweep : EngineState → List String → EngineState × List Event
  | s, [] => (s, [])
  | s, a :: rest =>
      match posGet s.positions a with
      | none => monitorSweep s rest
      | some p =>
          if shouldClosePosition s p then
            let (s1, e) := closePosition s a
            let (s2, evs) := monitorSweep s1 rest
            (s2, e.toList ++ evs)
          else monitorSweep s rest

/-- The peak-value update performed by `TradingEngine.calculateDrawdown`:
`peakValue = Math.max(totalValue, peakValue || totalValue)` (an absent or
zero stored peak counts as the current value). -/
def applyPeakUpdate (s : EngineState) : EngineState :=
  let current := s.totalValue
  let prior :=
    match s.peakValue with
    | none => current
    | some q => if q = 0 then current else q
  { s with peakValue := some (max current prior) }

/-- One tick of `TradingEngine.startMonitoring`: sweep all positions for
stop-loss / take-profit exits, recompute `totalValue`, then run the
drawdown check (whose only state effect is the peak-value update; a
breach only emits a CRITICAL alert). -/
def monitorStep (s : EngineState) : EngineState × List Event :=
  let (s1, evs) := monitorSweep s (s.positions.map fun p => p.asset)
  let s2 := { s1 with totalValue := calculateTotalValue s1 }
  (applyPeakUpdate s2, evs)

/-- The forced-close loop of `RiskManager.emergencyStop`: close every open
position, visiting the position keys in map order (the source's best-effort
iteration; a close that fails leaves its position in place and moves on). -/
def emergencyCloseAll : EngineState → List String → EngineState × List Event
  | s, [] => (s, [])
  | s, a :: rest =>
      let (s1, e) := closePosition s a
      let (s2, evs) := emergencyCloseAll s1 rest
      (s2, e.toList ++ evs)

/-- The combined state of the engine and of the risk manager's monitoring
flag (`this.monitoring.active`, true from the constructor until
`emergencyStop`). -/
structure SysState where
  engine : EngineState
  monitoringActive : Bool
deriving DecidableEq

/-- The operations of the exposed interface that mutate state: a market
update, an open request, a close request, an engine monitoring tick, and
`emergencyStop`.  (`RiskManager.startMonitoring` is invoked only by the
constructor, and the read-only queries `getStats`, `performRiskAssessment`
and `checkRiskLimits` do not change this state.) -/
inductive Op where
  | tick (asset : String) (md : MarketSnap)
  | openPos (asset : String) (side : Side) (size : ℚ)
  | closePos (asset : String)
  | monitor
  | estop
deriving DecidableEq

/-- One operation of the system: `estop` force-closes every position and
halts monitoring; the other operations leave the monitoring flag alone. -/
def stepSys (params : Params) (s : SysState) : Op → SysState × List Event
  | .tick asset md =>
      let (e, ev) := updateMarketData s.engine asset md
      ({ s with engine := e }, ev.toList)
  | .openPos asset side size =>
      let (e, p) := openPosition params s.engine asset side size
      ({ s with engine := e },
       (p.map fun q => Event.opened (q.size * q.entryPrice) q.fees).toList)
  | .closePos asset =>
      let (e, ev) := closePosition s.engine asset
      ({ s with engine := e }, ev.toList)
  | .monitor =>
      let (e, evs) := monitorStep s.engine
      ({ s with engine := e }, evs)
  | .estop =>
      let (e, evs) := emergencyCloseAll s.engine (s.engine.positions.map fun p => p.asset)
      ({ engine := e, monitoringActive := false }, evs)

/-- A run of the system: execute the operations in order, collecting the
emitted events. -/
def runSys (params : Params) : SysState → List Op → SysState × List Event
  | s, [] => (s, [])
  | s, op :: rest =>
      let (s1, evs1) := stepSys params s op
      let (s2, evs2) := runSys params s1 rest
      (s2, evs1 ++ evs2)

/-- The initial engine state for a given `initialCash` (the constructor of
`TradingEngine`): no positions, no margin used, `totalValue` `0`, no
recorded peak, empty caches and zeroed performance counters. -/
def initEngine (initialCash : ℚ) : EngineState :=
  { positions := []
    cash := initialCash
    marginUsed := 0
    totalValue := 0
    peakValue := none
    marketData := []
    priceHistory := []
    activeOrders := []
    perf := { totalTrades := 0, winningTrades := 0, losingTrades := 0,
              totalPnL := 0, winRate := 0, sharpe := 0 } }

/-- The initial system state: fresh engine, risk monitoring active. -/
def initSys (initialCash : ℚ) : SysState :=
  { engine := initEngine initialCash, monitoringActive := true }

/-- The cash debited by an accepted open: `notional + fee`. -/
def openDebit : Event → ℚ
  | .opened n f => n + f
  | .closed _ _ _ _ => 0

/-- The cash credited by a completed close: `exitValue - fee`. -/
def closeCredit : Event → ℚ
  | .opened _ _ => 0
  | .closed _ v f _ => v - f

/-- Whether the fee of an event is exactly 0.1 % of the entry notional of
the traded position. -/
def feeOkB : Event → Bool
  | .opened n f => f == n * (1/1000)
  | .closed n _ f _ => f == n * (1/1000)

/-- The sum of the entry notionals (`size * entryPrice`) of the open
positions of a state. -/
def sumNotional (ps : List Position) : ℚ :=
  (ps.map fun p => p.size * p.entryPrice).sum

/-- Whether a run never issues an open request for an asset that already
has an open position (the condition under which the silent-replace
behaviour of `openPosition` cannot fire). -/
def noReplaceB (params : Params) : SysState → List Op → Bool
  | _, [] => true
  | s, op :: rest =>
      (match op with
       | .openPos asset _ _ => (posGet s.engine.positions asset).isNone
       | _ => true) &&
      noReplaceB params (stepSys params s op).1 rest

/-- The risk parameters of `RiskManager` (`this.riskParams`). -/
structure RiskParams where
  maxDrawdown : ℚ
  maxDailyLoss : ℚ
  maxPositionSize : ℚ
  maxLeverage : ℚ
  maxConcentration : ℚ
  varLimit : ℚ
  stressTestThreshold : ℚ
  correlationLimit : ℚ
  liquidityThreshold : ℚ
deriving DecidableEq

/-- The default risk parameters (`config` fields absent). -/
def defaultRiskParams : RiskParams :=
  { maxDrawdown := 1/5
    maxDailyLoss := 1/10
    maxPositionSize := 1/10
    maxLeverage := 5
    maxConcentration := 1/4
    varLimit := 3/20
    stressTestThreshold := 3/10
    correlationLimit := 4/5
    liquidityThreshold := 7/10 }

/-- Severity of a risk finding. -/
inductive Severity where
  | MEDIUM : Severity
  | HIGH : Severity
  | CRITICAL : Severity
deriving DecidableEq

/-- A finding of one of the five pre-trade checks.  The source also
attaches a message and the offending value and limit; only the type tag
and the severity influence control flow, so only those are kept. -/
structure Finding where
  ftype : String
  severity : Severity
deriving DecidableEq

/-- `calculateCurrentLeverage`: `totalValue / (totalValue - marginUsed)`
when margin is in use, else `1` (JavaScript division, so a zero
denominator yields an infinity or `NaN`). -/
def calculateCurrentLeverage (s : EngineState) : JNum :=
  if 0 < s.marginUsed then jdiv (.fin s.totalValue) (.fin (s.totalValue - s.marginUsed))
  else .fin 1

/-- `checkPositionSizeRisk(position)`: a HIGH finding when
`size * entryPrice / totalValue` exceeds `maxPositionSize`. -/
def checkPositionSizeRisk (rp : RiskParams) (s : EngineState) (p : Position) : Option Finding :=
  let positionPercent := jdiv (.fin (p.size * p.entryPrice)) (.fin s.totalValue)
  if jgtQ positionPercent rp.maxPositionSize then some ⟨"POSITION_SIZE", .HIGH⟩ else none

/-- `checkConcentrationRisk(position)`: a HIGH finding when the value
already held in the asset (existing open positions at current market price,
falling back to their entry price) plus the proposed entry notional exceeds
`maxConcentration` of `totalValue`. -/
def checkConcentrationRisk (rp : RiskParams) (s : EngineState) (p : Position) : Option Finding :=
  let existing := s.positions.filter fun q => q.asset = p.asset
  let totalAssetValue :=
    (existing.map fun q =>
      match alGet s.marketData p.asset with
      | some md => q.size * md.price
      | none => q.size * q.entryPrice).sum + p.size * p.entryPrice
  let concentration := jdiv (.fin totalAssetValue) (.fin s.totalValue)
  if jgtQ concentration rp.maxConcentration then some ⟨"CONCENTRATION", .HIGH⟩ else none

/-- `calculateAssetCorrelations(targetAsset)`: the correlation of the
target's price history with the history of every other cached asset;
an empty map when the target has no history. -/
noncomputable def calculateAssetCorrelations (s : EngineState) (targetAsset : String) :
    List (String × JR) :=
  match alGet s.priceHistory targetAsset with
  | none => []
  | some targetHistory =>
      (s.priceHistory.filter fun e => ¬ e.1 = targetAsset).map fun e =>
        (e.1, calculateCorrelation (targetHistory.map fun h => h.price)
          (e.2.map fun h => h.price))

/-- `checkCorrelationRisk(position)`: a MEDIUM finding when some other
asset correlates with the target beyond `correlationLimit` in absolute
value. -/
noncomputable def checkCorrelationRisk (rp : RiskParams) (s : EngineState) (p : Position) :
    Option Finding :=
  let correlations := calculateAssetCorrelations s p.asset
  let highCorrelations :=
    (correlations.filter fun e => jrAbsGtQ e.2 rp.correlationLimit).filter fun e =>
      ¬ e.1 = p.asset
  if highCorrelations.length > 0 then some ⟨"CORRELATION", .MEDIUM⟩ else none

/-- `checkLiquidityRisk(position)`: no finding without market data;
otherwise a MEDIUM finding when the liquidity score
`Math.min(1, volume / (entryNotional * 100))` falls below
`liquidityThreshold`. -/
def checkLiquidityRisk (rp : RiskParams) (s : EngineState) (p : Position) : Option Finding :=
  match alGet s.marketData p.asset with
  | none => none
  | some md =>
      let positionValue := p.size * p.entryPrice
      let liquidityScore := jmin (.fin 1) (jdiv (.fin md.volume) (.fin (positionValue * 100)))
      if jltQ liquidityScore rp.liquidityThreshold then some ⟨"LIQUIDITY", .MEDIUM⟩ else none

/-- `checkLeverageRisk(position)`: a CRITICAL finding when the current
leverage exceeds `maxLeverage`. -/
def checkLeverageRisk (rp : RiskParams) (s : EngineState) : Option Finding :=
  if jgtQ (calculateCurrentLeverage s) rp.maxLeverage then some ⟨"LEVERAGE", .CRITICAL⟩ else none

/-- The list of findings collected by `checkPositionRisk(position)`, in
source order: size, concentration, correlation, liquidity, leverage. -/
noncomputable def positionRisks (rp : RiskParams) (s : EngineState) (p : Position) :
    List Finding :=
  [checkPositionSizeRisk rp s p,
   checkConcentrationRisk rp s p,
   checkCorrelationRisk rp s p,
   checkLiquidityRisk rp s p,
   checkLeverageRisk rp s].filterMap id

/-- `checkPositionRisk(position)` from the risk-management source: `false`
(the position "should be blocked") exactly when some finding is CRITICAL.
The source invokes this only from its `positionOpened` event handler —
that is, after `openPosition` has already committed the trade — and
discards the returned verdict. -/
noncomputable def checkPositionRisk (rp : RiskParams) (s : EngineState) (p : Position) : Bool :=
  let risks := positionRisks rp s p
  if risks.length > 0 then
    if risks.any fun r => r.severity == .CRITICAL then false else true
  else true

/-- The net cash effect of an event: an accepted open debits
`notional + fee`, a completed close credits `exitValue - fee`. -/
def cashDelta : Event → ℚ
  | .opened n f => -(n + f)
  | .closed _ v f _ => v - f

/-- Structural invariant of reachable engine states: at most one open
position per asset (the position map is keyed by asset), every open
position's asset has cached market data, and every stored fee is 0.1 % of
the entry notional. -/
def EngineInv (s : EngineState) : Prop :=
  (s.positions.map fun p => p.asset).Nodup ∧
  (∀ p ∈ s.positions, (alGet s.marketData p.asset).isSome = true) ∧
  (∀ p ∈ s.positions, p.fees = p.size * p.entryPrice * (1/1000))

/-- The operations of testable scenario 1/2 of the specification:
publish BTC market data (price 100, bid 99.5, ask 100.5), open LONG 100,
close immediately. -/
def scenario12Ops : List Op :=
  [.tick "BTC" ⟨100, 199/2, 201/2, 1000⟩, .openPos "BTC" .long 100, .closePos "BTC"]

/-- Parameters under which a duplicate open on the same asset passes the
engine's risk limits: position-size cap 100 % of cash, margin cap 5x. -/
def dupParams : Params :=
  { defaultParams with maxPositionSize := 1, leverage := 5 }

/-- A run that opens BTC twice in a row without closing. -/
def dupOps : List Op :=
  [.tick "BTC" ⟨100, 199/2, 201/2, 1000⟩, .openPos "BTC" .long 100, .openPos "BTC" .long 100]

/-- Parameters under which the high-leverage scenario below passes the
engine's own risk limits: position-size cap 100 % of cash, margin cap
10x.  The risk manager keeps its default limits (`maxLeverage` 5). -/
def levParams : Params :=
  { defaultParams with maxPositionSize := 1, leverage := 10 }

/-- A run that reaches a state whose portfolio leverage
`totalValue / (totalValue - marginUsed)` exceeds the risk manager's
`maxLeverage`: buy BTC with 90 % of the cash, let the monitoring tick
record `totalValue`, then publish ETH market data. -/
def levOps : List Op :=
  [.tick "BTC" ⟨100, 199/2, 201/2, 1000⟩, .openPos "BTC" .long 900, .monitor,
   .tick "ETH" ⟨10, 99/10, 101/10, 1000⟩]

/-- The engine state reached by `levOps`. -/
def levState : EngineState :=
  (runSys levParams (initSys 100000) levOps).1.engine

/-- A history of 31 trading results, all of them losses: `-1, ..., -31`. -/
def var31Losses : List ℚ :=
  (List.range 31).map fun i => -((i : ℚ) + 1)

/-- A 15-sample price history whose last 14 changes are all gains. -/
def risingPrices : List ℚ :=
  [1, 2, 3, 4, 5, 6, 7, 8, 9, 10, 11, 12, 13, 14, 15]

/-- The risk-score formula as worded in the specification, for a given
maximal concentration fraction: the sum of the four capped components,
capped at `100`. -/
def riskScoreFormula (dd pnl varq tv maxConc : ℚ) : ℚ :=
  min 100 (min 40 (dd * 200) + min 30 (|pnl| / tv * 300) + min 20 (varq / tv * 200) +
    min 10 (maxConc * 40))

/-- A fallback position record (used only as the default of `Option.getD`
where the option is proven to be `some`). -/
def fallbackPosition : Position :=
  { asset := "", side := .long, size := 0, entryPrice := 0, stopLoss := 0, takeProfit := 0,
    fees := 0 }

/-! ## Helper lemmas -/

/-- `foldl max` only grows its accumulator. -/
theorem le_foldl_max {a b : ℚ} (l : List ℚ) (h : a ≤ b) : a ≤ l.foldl max b := by
  induction l generalizing b with
  | nil => exact h
  | cons y ys ih => exact ih (le_trans h (le_max_left b y))

/-! ## Claim C5: aggregate risk score -/

/-- Claim C5, counterexample: the aggregate risk score leaves `[0, 100]`
in exactly the risk states the amended claim excludes.  With no open
positions (an empty `concentrationRisk` map) it is
`Math.min(10, Math.max() * 40) = -Infinity`; with `totalValue` zero the
daily-loss and VaR fractions are the JavaScript `0 / 0 = NaN`, which
propagates to a `NaN` score; and a negative drawdown, a negative
`portfolioVaR` or a negative concentration fraction drives the score below
`0`.  None of these values lies in `[0, 100]` as the claim asserts for
every risk state. -/
theorem c5_risk_score_range_counterexample :
    (calculateRiskScore 0 0 0 100000 [] = .inf false ∧
      jIn0to100 (calculateRiskScore 0 0 0 100000 []) = false) ∧
    (calculateRiskScore 0 0 0 0 [1/10] = .nan ∧
      jIn0to100 (calculateRiskScore 0 0 0 0 [1/10]) = false) ∧
    (calculateRiskScore (-1) 0 0 100000 [1/10] = .fin (-196) ∧
      jIn0to100 (calculateRiskScore (-1) 0 0 100000 [1/10]) = false) ∧
    (calculateRiskScore 0 0 (-100000) 100000 [1/10] = .fin (-196) ∧
      jIn0to100 (calculateRiskScore 0 0 (-100000) 100000 [1/10]) = false) ∧
    (calculateRiskScore 0 0 0 100000 [-1] = .fin (-40) ∧
      jIn0to100 (calculateRiskScore 0 0 0 100000 [-1]) = false) := by
  decide

/-- Claim C5, amended: on a risk state with a nonempty concentration map
of nonnegative fractions, positive `totalValue`, and nonnegative drawdown
and VaR, the aggregate risk score equals
`min(40, drawdown*200) + min(30, dailyLossFraction*300) +
min(20, varFraction*200) + min(10, maxConcentration*40)` capped at `100`,
and that value lies in `[0, 100]`. -/
theorem c5_risk_score_amended (dd pnl varq tv x : ℚ) (xs : List ℚ)
    (hdd : 0 ≤ dd) (hvar : 0 ≤ varq) (htv : 0 < tv) (hx : 0 ≤ x) :
    calculateRiskScore dd pnl varq tv (x :: xs) =
      .fin (riskScoreFormula dd pnl varq tv (xs.foldl max x)) ∧
    0 ≤ riskScoreFormula dd pnl varq tv (xs.foldl max x) ∧
    riskScoreFormula dd pnl varq tv (xs.foldl max x) ≤ 100 := by
  have htv' : tv ≠ 0 := ne_of_gt htv
  refine ⟨?_, ?_, ?_⟩
  · simp only [calculateRiskScore, riskScoreFormula, jdiv, jmul, jmin, jadd, jmaxList,
      if_neg htv']
  · have h1 : (0:ℚ) ≤ min 40 (dd * 200) :=
      le_min (by norm_num) (by positivity)
    have h2 : (0:ℚ) ≤ min 30 (|pnl| / tv * 300) :=
      le_min (by norm_num) (by positivity)
    have h3 : (0:ℚ) ≤ min 20 (varq / tv * 200) :=
      le_min (by norm_num) (by positivity)
    have hmc : (0:ℚ) ≤ xs.foldl max x := le_foldl_max xs hx
    have h4 : (0:ℚ) ≤ min 10 (xs.foldl max x * 40) :=
      le_min (by norm_num) (by positivity)
    have : (0:ℚ) ≤ min 40 (dd * 200) + min 30 (|pnl| / tv * 300) + min 20 (varq / tv * 200) +
        min 10 (xs.foldl max x * 40) := by linarith
    exact le_min (by norm_num) this
  · exact min_le_left _ _

/-- Claim C5 witness: a concrete instantiation of the amended risk-score
theorem. -/
theorem c5_risk_score_amended_witness :
    calculateRiskScore (1/100) (-50) 10 1000 [1/10] =
      .fin (riskScoreFormula (1/100) (-50) 10 1000 (([] : List ℚ).foldl max (1/10))) ∧
    riskScoreFormula (1/100) (-50) 10 1000 (([] : List ℚ).foldl max (1/10)) = 23 :=
  ⟨(c5_risk_score_amended (1/100) (-50) 10 1000 (1/10) [] (by norm_num) (by norm_num)
      (by norm_num) (by norm_num)).1, by decide⟩

/-! ## Claim C6: RSI range and all-gain histories -/

/-- Claim C6: on the 15-sample strictly rising history the last 14 changes
are all gains, so the loss list is empty, its JavaScript average is
`0 / 0 = NaN`, the `avgLoss === 0` guard misses, and `calculateRSI`
returns `NaN` — not `100` and not a value in `[0, 100]` as claimed (and as
its own neutral-fallback design intends). -/
theorem c6_rsi_all_gains_nan :
    calculateRSI risingPrices 14 = .nan ∧
    jIn0to100 (calculateRSI risingPrices 14) = false ∧
    ¬ calculateRSI risingPrices 14 = .fin 100 := by
  decide

/-! ## Claim C7: risk-engine drawdown -/

/-- Claim C7: the drawdown formula of `RiskManager.calculateDrawdown`
does compute `(peak - current) / peak` and yields a strictly positive
value on a genuinely declined valuation history (first conjuncts), but
the `portfolioValues` history it reads is never written by `RiskManager`,
so the risk state's `currentDrawdown` is `0` in every reachable state
(last conjunct). -/
theorem c7_drawdown_never_updates :
    calculateDrawdownValues [100000, 90000] = .fin (1/10) ∧
    jgtQ (calculateDrawdownValues [100000, 90000]) 0 = true ∧
    ∀ h : RMHistory, rmCalculateDrawdown h = .fin 0 := by
  refine ⟨by decide, by decide, fun h => rfl⟩

/-! ## Claim C1: cash accounting and testable scenario 1/2 -/

/-- Claim C1, counterexample: running specification scenario 1/2 (open
LONG 100 BTC at ask 100.5 from cash 100000, close at bid 99.5) gives a
closing fee of `10.05` (the fee recorded at open, `position.fees`, debited
a second time), hence `pnl = -110.05` and final cash `99879.90` — not the
claimed `pnl = -109.95` and `cash = 99880.00`. -/
theorem c1_scenario_counterexample :
    (runSys defaultParams (initSys 100000) scenario12Ops).2 =
      [.opened 10050 (201/20), .closed 10050 9950 (201/20) (-(2201/20))] ∧
    (runSys defaultParams (initSys 100000) scenario12Ops).1.engine.cash = 998799/10 ∧
    ¬ (runSys defaultParams (initSys 100000) scenario12Ops).1.engine.cash = 99880 ∧
    ¬ (-(2201/20) : ℚ) = -(10995/100) := by
  decide

/-! ## Claim C3: duplicate-asset opens -/

/-- Claim C3, counterexample: opening BTC twice in a row silently replaces
the first position but adds both entry notionals to `marginUsed`, so
`marginUsed = 20100` while the open positions' entry notionals sum to
`10050` — a run after which `marginUsed` is not the sum of entry notionals
of the open positions. -/
theorem c3_duplicate_open_margin_counterexample :
    (runSys dupParams (initSys 100000) dupOps).1.engine.marginUsed = 20100 ∧
    sumNotional (runSys dupParams (initSys 100000) dupOps).1.engine.positions = 10050 ∧
    ¬ (runSys dupParams (initSys 100000) dupOps).1.engine.marginUsed =
        sumNotional (runSys dupParams (initSys 100000) dupOps).1.engine.positions ∧
    ((runSys dupParams (initSys 100000) dupOps).1.engine.positions.map fun p => p.asset) =
      ["BTC"] := by
  decide

/-! ## Claim C8: position-size limit -/

/-- Claim C8: with `maxPositionSize = 0.1` and cash `100000`, an open
request of size `10000` at any market price above `1` has
`size * price > cash * maxPositionSize`, so `checkRiskLimits` fails and
`openPosition` returns `null` with the state unchanged. -/
theorem c8_position_size_limit_rejects (params : Params) (s : EngineState) (a : String)
    (side : Side) (md : MarketSnap) (hmd : alGet s.marketData a = some md)
    (hp : 1 < md.price) (hc : s.cash = 100000) (hm : params.maxPositionSize = 1/10) :
    openPosition params s a side 10000 = (s, none) := by
  have hlt : s.cash * params.maxPositionSize < 10000 * md.price := by
    rw [hc, hm]
    nlinarith
  simp [openPosition, checkRiskLimits, hmd, hlt]

/-- Claim C8 witness: a concrete engine state with cash `100000` and a
snapshot at price `2`, on which the open of size `10000` is rejected. -/
theorem c8_position_size_limit_rejects_witness :
    openPosition defaultParams
      { initEngine 100000 with marketData := [("BTC", ⟨2, 2, 2, 1⟩)] } "BTC" .long 10000 =
      ({ initEngine 100000 with marketData := [("BTC", ⟨2, 2, 2, 1⟩)] }, none) :=
  c8_position_size_limit_rejects defaultParams _ "BTC" .long ⟨2, 2, 2, 1⟩ (by decide)
    (by norm_num) rfl rfl

/-! ## Claim C9: value at risk -/

/-- `Rat.floor` agrees with the mathematical floor. -/
theorem ratFloor_eq_intFloor (q : ℚ) : Rat.floor q = ⌊q⌋ := by
  rw [Rat.floor_def', ← Rat.floor_def]

/-- Claim C9: `calculateVaR` returns exactly `0` for any series of fewer
than 30 samples; for a qualifying series (at least 30 samples, at least
one loss, confidence in `(0, 1]`) it returns the entry at index
`floor(n * (1 - confidence))` — with `n` the number of losses — of the
ascending-sorted absolute losses, the index being in range; and on 31
losses `-1, ..., -31` at confidence `0.95` it returns the second-smallest
loss, `2`. -/
theorem c9_var_percentile :
    (∀ (l : List ℚ) (c : ℚ), l.length < 30 → calculateVaR l c = 0) ∧
    (∀ (l : List ℚ) (c : ℚ), 30 ≤ l.length → lossesOf l ≠ [] → 0 < c → c ≤ 1 →
      List.Sorted (· ≤ ·) ((lossesOf l).insertionSort fun a b => a ≤ b) ∧
      ((lossesOf l).insertionSort fun a b => a ≤ b).Perm (lossesOf l) ∧
      (Rat.floor (((lossesOf l).length : ℚ) * (1 - c))).toNat < (lossesOf l).length ∧
      calculateVaR l c = ((lossesOf l).insertionSort fun a b => a ≤ b).getD
        (Rat.floor (((lossesOf l).length : ℚ) * (1 - c))).toNat 0) ∧
    calculateVaR var31Losses (19/20) = 2 := by
  refine ⟨?_, ?_, by decide⟩
  · intro l c h
    simp [calculateVaR, h]
  · intro l c hlen hne hc0 hc1
    have hn : 0 < (lossesOf l).length := List.length_pos.mpr hne
    have hnq : (0:ℚ) < ((lossesOf l).length : ℚ) := by exact_mod_cast hn
    have hx0 : (0:ℚ) ≤ ((lossesOf l).length : ℚ) * (1 - c) := by nlinarith
    have hflo : 0 ≤ Rat.floor (((lossesOf l).length : ℚ) * (1 - c)) := by
      rw [ratFloor_eq_intFloor]
      exact Int.floor_nonneg.mpr hx0
    have hxlt : ((lossesOf l).length : ℚ) * (1 - c) < (((lossesOf l).length : ℤ) : ℚ) := by
      push_cast
      nlinarith
    have hfhi : Rat.floor (((lossesOf l).length : ℚ) * (1 - c)) < ((lossesOf l).length : ℤ) := by
      rw [ratFloor_eq_intFloor]
      exact Int.floor_lt.mpr hxlt
    refine ⟨List.sorted_insertionSort _ _, List.perm_insertionSort _ _, by omega, ?_⟩
    have h30 : ¬ l.length < 30 := by omega
    have hz : ¬ (lossesOf l).length = 0 := by omega
    have hneg : ¬ Rat.floor (((lossesOf l).length : ℚ) * (1 - c)) < 0 := by omega
    simp only [calculateVaR, if_neg h30, if_neg hz, if_neg hneg]

/-- Claim C9 witness: instantiations of the short-series case (29 zero
samples) and of the qualifying case (the 31-loss history at confidence
`0.95`). -/
theorem c9_var_percentile_witness :
    calculateVaR (List.replicate 29 (0:ℚ)) (19/20) = 0 ∧
    calculateVaR var31Losses (19/20) = ((lossesOf var31Losses).insertionSort
      fun a b => a ≤ b).getD
      (Rat.floor (((lossesOf var31Losses).length : ℚ) * (1 - 19/20))).toNat 0 :=
  ⟨c9_var_percentile.1 (List.replicate 29 0) (19/20) (by decide),
   (c9_var_percentile.2.1 var31Losses (19/20) (by decide) (by decide) (by norm_num)
      (by norm_num)).2.2.2⟩

/-! ## Ledger machinery: elementary lemmas about closes, opens and ticks -/

/-- A close never touches the market-data cache. -/
theorem close_marketData (s : EngineState) (a : String) :
    (closePosition s a).1.marketData = s.marketData := by
  unfold closePosition
  split
  · rfl
  · split
    · rfl
    · rfl

/-- A close never touches the price-history cache. -/
theorem close_priceHistory (s : EngineState) (a : String) :
    (closePosition s a).1.priceHistory = s.priceHistory := by
  unfold closePosition
  split
  · rfl
  · split
    · rfl
    · rfl

/-- The open positions after a close: unchanged on failure, the same-asset
position filtered out on success. -/
theorem close_positions (s : EngineState) (a : String) :
    (closePosition s a).1.positions = s.positions ∨
    (closePosition s a).1.positions = s.positions.filter fun q => ¬ q.asset = a := by
  unfold closePosition
  split
  · exact Or.inl rfl
  · split
    · exact Or.inl rfl
    · exact Or.inr rfl

/-- A successful close removes exactly the positions of the closed
asset. -/
theorem close_positions_found {s : EngineState} {a : String} {p : Position} {md : MarketSnap}
    (h : posGet s.positions a = some p) (hmd : alGet s.marketData a = some md) :
    (closePosition s a).1.positions = s.positions.filter fun q => ¬ q.asset = a := by
  unfold closePosition
  rw [h, hmd]

/-- The cash after a close equals the cash before plus the net cash effect
of the emitted events. -/
theorem close_cash (s : EngineState) (a : String) :
    (closePosition s a).1.cash =
      s.cash + (((closePosition s a).2.toList).map cashDelta).sum := by
  unfold closePosition
  split
  · simp
  · split
    · simp
    · simp [cashDelta]

/-- The margin after a close: on success it drops by the entry notional of
the closed position. -/
theorem close_margin {s : EngineState} {a : String} {p : Position} {md : MarketSnap}
    (h : posGet s.positions a = some p) (hmd : alGet s.marketData a = some md) :
    (closePosition s a).1.marginUsed = s.marginUsed - p.size * p.entryPrice := by
  unfold closePosition
  rw [h, hmd]

/-- A failed close leaves the state unchanged and emits nothing. -/
theorem close_fail (s : EngineState) (a : String)
    (h : posGet s.positions a = none ∨
      (posGet s.positions a).isSome ∧ alGet s.marketData a = none) :
    closePosition s a = (s, none) := by
  unfold closePosition
  rcases h with h | ⟨_, hmd⟩
  · rw [h]
  · cases hp : posGet s.positions a with
    | none => rfl
    | some p => rw [hmd]

/-- The fee of every event emitted by a close of an invariant-satisfying
state is 0.1 % of the entry notional. -/
theorem close_feeOk {s : EngineState} (a : String) (hinv : EngineInv s) :
    ((closePosition s a).2.toList).all feeOkB = true := by
  unfold closePosition
  split
  · rfl
  next p hp =>
    split
    · rfl
    · have hmem : p ∈ s.positions := List.mem_of_find?_eq_some hp
      have hfee : p.fees = p.size * p.entryPrice * (1/1000) := hinv.2.2 p hmem
      simp [feeOkB, hfee]

/-- A member of the position list found by `posGet` is a member of the
list. -/
theorem posGet_mem {ps : List Position} {a : String} {p : Position}
    (h : posGet ps a = some p) : p ∈ ps :=
  List.mem_of_find?_eq_some h

/-- The asset of the position found by `posGet`. -/
theorem posGet_asset {ps : List Position} {a : String} {p : Position}
    (h : posGet ps a = some p) : p.asset = a := by
  have := List.find?_some h
  simpa using this

/-- A close preserves the structural engine invariant. -/
theorem close_inv {s : EngineState} (a : String) (hinv : EngineInv s) :
    EngineInv (closePosition s a).1 := by
  obtain ⟨hnd, hmd, hfee⟩ := hinv
  rcases close_positions s a with h | h
  · refine ⟨?_, ?_, ?_⟩
    · rw [h]; exact hnd
    · intro p hp
      rw [close_marketData]
      exact hmd p (h ▸ hp)
    · intro p hp
      exact hfee p (h ▸ hp)
  · refine ⟨?_, ?_, ?_⟩
    · rw [h]
      exact hnd.sublist (List.Sublist.map _ (List.filter_sublist _))
    · intro p hp
      rw [close_marketData]
      exact hmd p (List.mem_of_mem_filter (h ▸ hp))
    · intro p hp
      exact hfee p (List.mem_of_mem_filter (h ▸ hp))

/-- Unfolding of `alGet` on a cons cell. -/
theorem alGet_cons {α : Type} (e : String × α) (t : List (String × α)) (k' : String) :
    alGet (e :: t) k' = if e.1 = k' then some e.2 else alGet t k' := by
  unfold alGet
  by_cases h : e.1 = k'
  · rw [List.find?_cons_of_pos _ (by simpa using h), if_pos h]
    rfl
  · rw [List.find?_cons_of_neg _ (by simpa using h), if_neg h]

/-- A present key has a matching entry. -/
theorem alGet_isSome_any {α : Type} {l : List (String × α)} {k : String}
    (h : (alGet l k).isSome = true) : (l.any fun e => e.1 = k) = true := by
  unfold alGet at h
  rcases hf : List.find? (fun e => decide (e.1 = k)) l with _ | x
  · rw [hf] at h
    simp at h
  · have hpx := List.find?_some hf
    exact List.any_eq_true.mpr ⟨x, List.mem_of_find?_eq_some hf, hpx⟩

/-- Setting a present key via the map branch of `alSet` makes the key map
to the new value. -/
theorem alGet_mapSet_self {α : Type} (l : List (String × α)) (k : String) (v : α)
    (hany : (l.any fun e => e.1 = k) = true) :
    alGet (l.map fun e => if e.1 = k then (k, v) else e) k = some v := by
  induction l with
  | nil => simp at hany
  | cons e t ih =>
      rw [List.map_cons]
      by_cases he : e.1 = k
      · rw [if_pos he, alGet_cons, if_pos rfl]
      · have ht : (t.any fun e => e.1 = k) = true := by
          simpa [List.any_cons, he] using hany
        rw [if_neg he, alGet_cons, if_neg he]
        exact ih ht

/-- The map branch of `alSet` leaves other keys alone. -/
theorem alGet_mapSet_ne {α : Type} (l : List (String × α)) (k k' : String) (v : α)
    (h : ¬ k' = k) :
    alGet (l.map fun e => if e.1 = k then (k, v) else e) k' = alGet l k' := by
  induction l with
  | nil => rfl
  | cons e t ih =>
      rw [List.map_cons]
      by_cases he : e.1 = k
      · have h1 : ¬ ((k, v).1 = k') := fun hk => h hk.symm
        have h2 : ¬ (e.1 = k') := by
          rw [he]
          exact fun hk => h hk.symm
        rw [if_pos he, alGet_cons, alGet_cons, if_neg h1, if_neg h2]
        exact ih
      · rw [if_neg he, alGet_cons, alGet_cons]
        by_cases he' : e.1 = k'
        · rw [if_pos he', if_pos he']
        · rw [if_neg he', if_neg he']
          exact ih

/-- Appending a fresh entry makes its key map to the value (or the key was
already present). -/
theorem alGet_append_single_self {α : Type} (l : List (String × α)) (k : String) (v : α) :
    alGet (l ++ [(k, v)]) k = some v ∨ (alGet l k).isSome = true := by
  induction l with
  | nil =>
      left
      rw [List.nil_append, alGet_cons, if_pos rfl]
  | cons e t ih =>
      by_cases he : e.1 = k
      · right
        rw [alGet_cons, if_pos he]
        rfl
      · rcases ih with h | h
        · left
          rw [List.cons_append, alGet_cons, if_neg he]
          exact h
        · right
          rw [alGet_cons, if_neg he]
          exact h

/-- Appending an entry leaves other keys alone. -/
theorem alGet_append_single_ne {α : Type} (l : List (String × α)) (k k' : String) (v : α)
    (h : ¬ k' = k) :
    alGet (l ++ [(k, v)]) k' = alGet l k' := by
  induction l with
  | nil =>
      rw [List.nil_append, alGet_cons, if_neg (fun hk => h hk.symm)]
  | cons e t ih =>
      rw [List.cons_append, alGet_cons, alGet_cons]
      by_cases he : e.1 = k'
      · rw [if_pos he, if_pos he]
      · rw [if_neg he, if_neg he]
        exact ih

/-- `alSet` makes the written key present. -/
theorem alGet_alSet_self_isSome {α : Type} (l : List (String × α)) (k : String) (v : α) :
    (alGet (alSet l k v) k).isSome = true := by
  unfold alSet
  split
  next hany => simp [alGet_mapSet_self l k v hany]
  next hany =>
    rcases alGet_append_single_self l k v with h | h
    · simp [h]
    · exact absurd (alGet_isSome_any h) (by simpa using hany)

/-- `alSet` leaves the other keys' presence and values alone. -/
theorem alGet_alSet_ne {α : Type} (l : List (String × α)) (k k' : String) (v : α)
    (h : ¬ k' = k) :
    alGet (alSet l k v) k' = alGet l k' := by
  unfold alSet
  split
  · exact alGet_mapSet_ne l k k' v h
  · exact alGet_append_single_ne l k k' v h

/-- The assets of the position map after `posSet`: unchanged when the
asset was already present, appended otherwise. -/
theorem posSet_assets (ps : List Position) (p : Position) :
    ((posSet ps p).map fun q => q.asset) = (ps.map fun q => q.asset) ∨
    (((posSet ps p).map fun q => q.asset) = (ps.map fun q => q.asset) ++ [p.asset] ∧
      ¬ p.asset ∈ (ps.map fun q => q.asset)) := by
  unfold posSet
  split
  next hany =>
    left
    rw [List.map_map]
    apply List.map_congr_left
    intro q hq
    by_cases h : q.asset = p.asset
    · simp [h]
    · simp [h]
  next hany =>
    right
    constructor
    · simp
    · intro hmem
      rcases List.mem_map.mp hmem with ⟨q, hq, hqa⟩
      have : (ps.any fun q => q.asset = p.asset) = true :=
        List.any_eq_true.mpr ⟨q, hq, by simpa using hqa⟩
      simp [this] at hany

/-- Membership after `posSet`: the new position or an old one. -/
theorem posSet_mem {ps : List Position} {p q : Position} (h : q ∈ posSet ps p) :
    q = p ∨ q ∈ ps := by
  unfold posSet at h
  split at h
  · rcases List.mem_map.mp h with ⟨r, hr, hrq⟩
    by_cases hra : r.asset = p.asset
    · simp [hra] at hrq
      exact Or.inl hrq.symm
    · simp [hra] at hrq
      exact Or.inr (hrq ▸ hr)
  · rcases List.mem_append.mp h with h | h
    · exact Or.inr h
    · simp at h
      exact Or.inl h

/-- Case analysis of `openPosition`: either a rejection with no state
change, or an accepted open whose state deltas, emitted position and fee
are as in the source. -/
theorem open_cases (params : Params) (s : EngineState) (a : String) (side : Side) (size : ℚ) :
    openPosition params s a side size = (s, none) ∨
    ∃ p : Position,
      openPosition params s a side size =
        ({ s with
            positions := posSet s.positions p
            cash := s.cash - (p.size * p.entryPrice + p.fees)
            marginUsed := s.marginUsed + p.size * p.entryPrice }, some p) ∧
      p.asset = a ∧ p.size = size ∧
      p.fees = p.size * p.entryPrice * (1/1000) ∧
      (alGet s.marketData a).isSome = true := by
  unfold openPosition
  split
  · exact Or.inl rfl
  next md hmd =>
    split
    · exact Or.inl rfl
    · split
      all_goals dsimp only
      all_goals split
      · exact Or.inl rfl
      · exact Or.inr ⟨_, rfl, rfl, rfl, rfl, by rw [hmd]; rfl⟩
      · exact Or.inl rfl
      · exact Or.inr ⟨_, rfl, rfl, rfl, rfl, by rw [hmd]; rfl⟩

/-- An open preserves the structural engine invariant. -/
theorem open_inv {s : EngineState} (params : Params) (a : String) (side : Side) (size : ℚ)
    (hinv : EngineInv s) : EngineInv (openPosition params s a side size).1 := by
  obtain ⟨hnd, hmd, hfee⟩ := hinv
  rcases open_cases params s a side size with h | ⟨p, heq, hpa, hpsz, hpf, hmds⟩
  · rw [h]
    exact ⟨hnd, hmd, hfee⟩
  · rw [heq]
    refine ⟨?_, ?_, ?_⟩
    · rcases posSet_assets s.positions p with h | ⟨h, hnotmem⟩
      · simpa [h] using hnd
      · show ((posSet s.positions p).map fun q => q.asset).Nodup
        rw [h, ← List.concat_eq_append]
        exact hnd.concat hnotmem
    · intro q hq
      show (alGet s.marketData q.asset).isSome = true
      rcases posSet_mem hq with rfl | hq'
      · rw [hpa]
        exact hmds
      · exact hmd q hq'
    · intro q hq
      rcases posSet_mem hq with rfl | hq'
      · exact hpf
      · exact hfee q hq'

/-- The cache refresh leaves cash, margin and positions untouched and
preserves the structural engine invariant. -/
theorem tickCache_inv {s : EngineState} (a : String) (md : MarketSnap) (hinv : EngineInv s) :
    EngineInv (tickCache s a md) := by
  obtain ⟨hnd, hmdp, hfee⟩ := hinv
  refine ⟨hnd, ?_, hfee⟩
  intro p hp
  show (alGet (alSet s.marketData a md) p.asset).isSome = true
  by_cases hpa : p.asset = a
  · rw [hpa]
    exact alGet_alSet_self_isSome s.marketData a md
  · rw [alGet_alSet_ne s.marketData a p.asset md hpa]
    exact hmdp p hp

/-- The cash is unchanged by the cache refresh. -/
theorem tickCache_cash (s : EngineState) (a : String) (md : MarketSnap) :
    (tickCache s a md).cash = s.cash := rfl

/-- A market-data update preserves the structural engine invariant. -/
theorem tick_inv {s : EngineState} (a : String) (md : MarketSnap) (hinv : EngineInv s) :
    EngineInv (updateMarketData s a md).1 := by
  have h2 := tickCache_inv a md hinv
  unfold updateMarketData
  dsimp only
  split
  · exact h2
  · split
    · exact close_inv a h2
    · exact h2

/-- A market-data update changes cash exactly by the net effect of the
events it emits, with correct fees. -/
theorem tick_cash {s : EngineState} (a : String) (md : MarketSnap) (hinv : EngineInv s) :
    (updateMarketData s a md).1.cash =
      s.cash + (((updateMarketData s a md).2.toList).map cashDelta).sum ∧
    ((updateMarketData s a md).2.toList).all feeOkB = true := by
  have h2 := tickCache_inv a md hinv
  unfold updateMarketData
  dsimp only
  split
  · simp [tickCache_cash]
  · split
    · constructor
      · rw [close_cash (tickCache s a md) a, tickCache_cash]
      · exact close_feeOk a h2
    · simp [tickCache_cash]

/-- The monitoring sweep preserves the invariant, changes cash exactly by
its emitted events and keeps correct fees. -/
theorem monitorSweep_ok : ∀ (l : List String) (s : EngineState), EngineInv s →
    EngineInv (monitorSweep s l).1 ∧
    (monitorSweep s l).1.cash = s.cash + (((monitorSweep s l).2).map cashDelta).sum ∧
    ((monitorSweep s l).2).all feeOkB = true := by
  intro l
  induction l with
  | nil =>
      intro s hinv
      exact ⟨hinv, by simp [monitorSweep], by simp [monitorSweep]⟩
  | cons a rest ih =>
      intro s hinv
      unfold monitorSweep
      split
      · exact ih s hinv
      · split
        · dsimp only
          obtain ⟨ih1, ih2, ih3⟩ := ih (closePosition s a).1 (close_inv a hinv)
          refine ⟨ih1, ?_, ?_⟩
          · rw [ih2, close_cash s a]
            simp [add_assoc]
          · simp only [List.all_append]
            rw [close_feeOk a hinv, ih3]
            rfl
        · exact ih s hinv

/-- The forced-close loop preserves the invariant, changes cash exactly by
its emitted events and keeps correct fees. -/
theorem emergencyCloseAll_ok : ∀ (l : List String) (s : EngineState), EngineInv s →
    EngineInv (emergencyCloseAll s l).1 ∧
    (emergencyCloseAll s l).1.cash =
      s.cash + (((emergencyCloseAll s l).2).map cashDelta).sum ∧
    ((emergencyCloseAll s l).2).all feeOkB = true := by
  intro l
  induction l with
  | nil =>
      intro s hinv
      exact ⟨hinv, by simp [emergencyCloseAll], by simp [emergencyCloseAll]⟩
  | cons a rest ih =>
      intro s hinv
      unfold emergencyCloseAll
      dsimp only
      obtain ⟨ih1, ih2, ih3⟩ := ih (closePosition s a).1 (close_inv a hinv)
      refine ⟨ih1, ?_, ?_⟩
      · rw [ih2, close_cash s a]
        simp [add_assoc]
      · simp only [List.all_append]
        rw [close_feeOk a hinv, ih3]
        rfl

/-- The monitoring tick preserves the invariant, changes cash exactly by
its emitted events and keeps correct fees. -/
theorem monitorStep_ok {s : EngineState} (hinv : EngineInv s) :
    EngineInv (monitorStep s).1 ∧
    (monitorStep s).1.cash = s.cash + (((monitorStep s).2).map cashDelta).sum ∧
    ((monitorStep s).2).all feeOkB = true := by
  obtain ⟨h1, h2, h3⟩ := monitorSweep_ok (s.positions.map fun p => p.asset) s hinv
  unfold monitorStep
  dsimp only
  obtain ⟨hnd, hmd, hfee⟩ := h1
  exact ⟨⟨hnd, hmd, hfee⟩, h2, h3⟩

/-- Every step of the system preserves the structural invariant, changes
cash exactly by the net effect of its emitted events, emits only events
with correct fees, and never reactivates a stopped monitoring loop. -/
theorem stepSys_ok (params : Params) (s : SysState) (op : Op) (hinv : EngineInv s.engine) :
    EngineInv (stepSys params s op).1.engine ∧
    (stepSys params s op).1.engine.cash =
      s.engine.cash + (((stepSys params s op).2).map cashDelta).sum ∧
    ((stepSys params s op).2).all feeOkB = true ∧
    (s.monitoringActive = false → (stepSys params s op).1.monitoringActive = false) := by
  cases op with
  | tick a md =>
      obtain ⟨h1, h2⟩ := tick_cash a md hinv
      exact ⟨tick_inv a md hinv, h1, h2, fun h => h⟩
  | openPos a side size =>
      refine ⟨open_inv params a side size hinv, ?_, ?_, fun h => h⟩
      · rcases open_cases params s.engine a side size with h | ⟨p, heq, hpa, hpsz, hpf, hmds⟩
        · simp [stepSys, h]
        · simp [stepSys, heq, cashDelta]
          ring
      · rcases open_cases params s.engine a side size with h | ⟨p, heq, hpa, hpsz, hpf, hmds⟩
        · simp [stepSys, h]
        · simp [stepSys, heq, feeOkB, hpf]
  | closePos a =>
      exact ⟨close_inv a hinv, close_cash s.engine a, close_feeOk a hinv, fun h => h⟩
  | monitor =>
      obtain ⟨h1, h2, h3⟩ := monitorStep_ok hinv
      exact ⟨h1, h2, h3, fun h => h⟩
  | estop =>
      obtain ⟨h1, h2, h3⟩ :=
        emergencyCloseAll_ok (s.engine.positions.map fun p => p.asset) s.engine hinv
      exact ⟨h1, h2, h3, fun _ => rfl⟩

/-- A run of the system from an invariant-satisfying state preserves the
invariant, changes cash exactly by the net effect of the emitted trace,
emits only events with correct fees, and never reactivates a stopped
monitoring loop. -/
theorem runSys_ok (params : Params) : ∀ (ops : List Op) (s : SysState),
    EngineInv s.engine →
    EngineInv (runSys params s ops).1.engine ∧
    (runSys params s ops).1.engine.cash =
      s.engine.cash + (((runSys params s ops).2).map cashDelta).sum ∧
    ((runSys params s ops).2).all feeOkB = true ∧
    (s.monitoringActive = false → (runSys params s ops).1.monitoringActive = false) := by
  intro ops
  induction ops with
  | nil =>
      intro s hinv
      exact ⟨hinv, by simp [runSys], by simp [runSys], fun h => by simpa [runSys] using h⟩
  | cons op rest ih =>
      intro s hinv
      obtain ⟨h1, h2, h3, h4⟩ := stepSys_ok params s op hinv
      obtain ⟨r1, r2, r3, r4⟩ := ih (stepSys params s op).1 h1
      unfold runSys
      dsimp only
      refine ⟨r1, ?_, ?_, fun hm => r4 (h4 hm)⟩
      · rw [r2, h2]
        simp [add_assoc]
      · simp only [List.all_append]
        rw [h3, r3]
        rfl

/-- The engine invariant holds initially. -/
theorem initEngine_inv (c : ℚ) : EngineInv (initEngine c) := by
  refine ⟨by simp [initEngine], ?_, ?_⟩
  · intro p hp
    simp [initEngine] at hp
  · intro p hp
    simp [initEngine] at hp

/-- Net cash effect versus the open-debit / close-credit split. -/
theorem sum_cashDelta (evs : List Event) :
    (evs.map cashDelta).sum = (evs.map closeCredit).sum - (evs.map openDebit).sum := by
  induction evs with
  | nil => simp
  | cons e t ih =>
      cases e with
      | opened n f =>
          simp only [List.map_cons, List.sum_cons, cashDelta, closeCredit, openDebit, ih]
          ring
      | closed n v f pnl =>
          simp only [List.map_cons, List.sum_cons, cashDelta, closeCredit, openDebit, ih]
          ring

/-- Claim C1, amended: for every run from a fresh engine, the final cash
equals `initialCash` minus `notional + fee` summed over the accepted
opens, plus `exitValue - fee` summed over the completed closes — where
both the open fee and the close fee of a position are 0.1 % of its ENTRY
notional (the close debits the fee recorded at open a second time). -/
theorem c1_cash_accounting_amended (params : Params) (c : ℚ) (ops : List Op) :
    (runSys params (initSys c) ops).1.engine.cash =
      c - (((runSys params (initSys c) ops).2).map openDebit).sum
        + (((runSys params (initSys c) ops).2).map closeCredit).sum ∧
    ((runSys params (initSys c) ops).2).all feeOkB = true := by
  obtain ⟨_, h2, h3, _⟩ := runSys_ok params ops (initSys c) (initEngine_inv c)
  refine ⟨?_, h3⟩
  rw [h2, sum_cashDelta]
  show c + _ = _
  ring

/-- The forced-close loop over the assets of the open-position list leaves
no open position. -/
theorem closeAll_empties : ∀ (l : List Position) (s : EngineState),
    s.positions = l → EngineInv s →
    (emergencyCloseAll s (l.map fun p => p.asset)).1.positions = [] := by
  intro l
  induction l with
  | nil =>
      intro s hpos hinv
      simpa [emergencyCloseAll] using hpos
  | cons p t ih =>
      intro s hpos hinv
      have hfind : posGet s.positions p.asset = some p := by
        rw [hpos]
        unfold posGet
        rw [List.find?_cons_of_pos _ (by simp)]
      have hmem : p ∈ s.positions := by
        rw [hpos]
        exact List.mem_cons_self p t
      obtain ⟨md, hmd⟩ := Option.isSome_iff_exists.mp (hinv.2.1 p hmem)
      have hnd := hinv.1
      rw [hpos, List.map_cons] at hnd
      have hnotin : ¬ p.asset ∈ (t.map fun q => q.asset) := (List.nodup_cons.mp hnd).1
      have hall : ∀ q ∈ t, ¬ q.asset = p.asset := by
        intro q hq hqa
        exact hnotin (List.mem_map.mpr ⟨q, hq, hqa⟩)
      have hfilter : (s.positions.filter fun q => ¬ q.asset = p.asset) = t := by
        rw [hpos, List.filter_cons_of_neg (by simp)]
        apply List.filter_eq_self.mpr
        intro q hq
        simpa using hall q hq
      have hclosed : (closePosition s p.asset).1.positions = t := by
        rw [close_positions_found hfind hmd, hfilter]
      rw [List.map_cons]
      unfold emergencyCloseAll
      dsimp only
      exact ih (closePosition s p.asset).1 hclosed (close_inv p.asset hinv)

/-- Claim C4: from any reachable state, after `emergencyStop` no open
position remains in the ledger and the risk monitoring loop is inactive;
and the Stopped state is terminal — after any further sequence of
operations of the same instance the monitoring loop is still inactive. -/
theorem c4_emergency_stop_terminal (params : Params) (c : ℚ) (ops opsAfter : List Op) :
    (stepSys params (runSys params (initSys c) ops).1 .estop).1.engine.positions = [] ∧
    (stepSys params (runSys params (initSys c) ops).1 .estop).1.monitoringActive = false ∧
    (runSys params (stepSys params (runSys params (initSys c) ops).1 .estop).1
      opsAfter).1.monitoringActive = false := by
  obtain ⟨hinv, -, -, -⟩ := runSys_ok params ops (initSys c) (initEngine_inv c)
  refine ⟨?_, rfl, ?_⟩
  · exact closeAll_empties (runSys params (initSys c) ops).1.engine.positions
      (runSys params (initSys c) ops).1.engine rfl hinv
  · obtain ⟨hinv2, -, -, -⟩ :=
      stepSys_ok params (runSys params (initSys c) ops).1 .estop hinv
    obtain ⟨-, -, -, h4⟩ := runSys_ok params opsAfter
      (stepSys params (runSys params (initSys c) ops).1 .estop).1 hinv2
    exact h4 rfl

/-- Removing the (unique) position of an asset removes exactly its entry
notional from the sum. -/
theorem sumNotional_filter : ∀ (ps : List Position) (a : String) (p : Position),
    ((ps.map fun q => q.asset).Nodup) → posGet ps a = some p →
    sumNotional (ps.filter fun q => ¬ q.asset = a) =
      sumNotional ps - p.size * p.entryPrice := by
  intro ps
  induction ps with
  | nil =>
      intro a p _ hp
      simp [posGet] at hp
  | cons q t ih =>
      intro a p hnd hp
      rw [List.map_cons] at hnd
      by_cases hq : q.asset = a
      · have hpq : p = q := by
          unfold posGet at hp
          rw [List.find?_cons_of_pos _ (by simpa using hq)] at hp
          exact (Option.some_inj.mp hp).symm
        have hall : ∀ r ∈ t, ¬ r.asset = a := by
          intro r hr hra
          exact (List.nodup_cons.mp hnd).1 (List.mem_map.mpr ⟨r, hr, by rw [hra, ← hq]⟩)
        rw [List.filter_cons_of_neg (by simpa using hq)]
        rw [List.filter_eq_self.mpr (by intro r hr; simpa using hall r hr)]
        rw [hpq]
        simp [sumNotional]
      · have hp' : posGet t a = some p := by
          unfold posGet at hp ⊢
          rwa [List.find?_cons_of_neg _ (by simpa using hq)] at hp
        rw [List.filter_cons_of_pos (by simpa using hq)]
        have := ih a p (List.nodup_cons.mp hnd).2 hp'
        simp only [sumNotional, List.map_cons, List.sum_cons] at this ⊢
        rw [this]
        ring

/-- A close keeps `marginUsed` equal to the sum of open entry notionals. -/
theorem close_margin_sum {s : EngineState} (a : String) (hinv : EngineInv s)
    (hm : s.marginUsed = sumNotional s.positions) :
    (closePosition s a).1.marginUsed = sumNotional (closePosition s a).1.positions := by
  cases hp : posGet s.positions a with
  | none =>
      rw [close_fail s a (Or.inl hp)]
      exact hm
  | some p =>
      cases hmd : alGet s.marketData a with
      | none =>
          rw [close_fail s a (Or.inr ⟨by rw [hp]; rfl, hmd⟩)]
          exact hm
      | some md =>
          rw [close_margin hp hmd, close_positions_found hp hmd,
            sumNotional_filter s.positions a p hinv.1 hp, hm]

/-- An open on an asset without an open position keeps `marginUsed` equal
to the sum of open entry notionals. -/
theorem open_margin_sum {s : EngineState} (params : Params) (a : String) (side : Side)
    (size : ℚ) (hnone : posGet s.positions a = none)
    (hm : s.marginUsed = sumNotional s.positions) :
    (openPosition params s a side size).1.marginUsed =
      sumNotional (openPosition params s a side size).1.positions := by
  rcases open_cases params s a side size with h | ⟨p, heq, hpa, -, -, -⟩
  · rw [h]
    exact hm
  · have hany : ¬ (s.positions.any fun q => q.asset = p.asset) = true := by
      intro hcontra
      rcases List.any_eq_true.mp hcontra with ⟨q, hq, hqa⟩
      have : ∀ x ∈ s.positions, ¬ (fun r => decide (r.asset = a)) x = true :=
        List.find?_eq_none.mp hnone
      exact this q hq (by simpa [hpa] using hqa)
    have happ : posSet s.positions p = s.positions ++ [p] := by
      unfold posSet
      rw [if_neg hany]
    rw [heq]
    show s.marginUsed + p.size * p.entryPrice = sumNotional (posSet s.positions p)
    rw [happ]
    simp only [sumNotional, List.map_append, List.sum_append, List.map_cons, List.sum_cons,
      List.map_nil, List.sum_nil]
    rw [hm, sumNotional]
    ring

/-- The monitoring sweep keeps `marginUsed` equal to the sum of open
entry notionals. -/
theorem monitorSweep_margin_sum : ∀ (l : List String) (s : EngineState), EngineInv s →
    s.marginUsed = sumNotional s.positions →
    (monitorSweep s l).1.marginUsed = sumNotional (monitorSweep s l).1.positions := by
  intro l
  induction l with
  | nil =>
      intro s _ hm
      simpa [monitorSweep] using hm
  | cons a rest ih =>
      intro s hinv hm
      unfold monitorSweep
      split
      · exact ih s hinv hm
      · split
        · dsimp only
          exact ih (closePosition s a).1 (close_inv a hinv) (close_margin_sum a hinv hm)
        · exact ih s hinv hm

/-- The forced-close loop keeps `marginUsed` equal to the sum of open
entry notionals. -/
theorem emergencyCloseAll_margin_sum : ∀ (l : List String) (s : EngineState), EngineInv s →
    s.marginUsed = sumNotional s.positions →
    (emergencyCloseAll s l).1.marginUsed =
      sumNotional (emergencyCloseAll s l).1.positions := by
  intro l
  induction l with
  | nil =>
      intro s _ hm
      simpa [emergencyCloseAll] using hm
  | cons a rest ih =>
      intro s hinv hm
      unfold emergencyCloseAll
      dsimp only
      exact ih (closePosition s a).1 (close_inv a hinv) (close_margin_sum a hinv hm)

/-- Any step whose open request (if it is one) targets an asset without an
open position keeps `marginUsed` equal to the sum of open entry
notionals. -/
theorem stepSys_margin_sum (params : Params) (s : SysState) (op : Op)
    (hinv : EngineInv s.engine) (hm : s.engine.marginUsed = sumNotional s.engine.positions)
    (hop : ∀ a side size, op = .openPos a side size → posGet s.engine.positions a = none) :
    (stepSys params s op).1.engine.marginUsed =
      sumNotional (stepSys params s op).1.engine.positions := by
  cases op with
  | tick a md =>
      show (updateMarketData s.engine a md).1.marginUsed =
        sumNotional (updateMarketData s.engine a md).1.positions
      have h2 := tickCache_inv a md hinv
      have hm2 : (tickCache s.engine a md).marginUsed =
          sumNotional (tickCache s.engine a md).positions := hm
      unfold updateMarketData
      dsimp only
      split
      · exact hm2
      · split
        · exact close_margin_sum a h2 hm2
        · exact hm2
  | openPos a side size =>
      exact open_margin_sum params a side size (hop a side size rfl) hm
  | closePos a =>
      exact close_margin_sum a hinv hm
  | monitor =>
      exact monitorSweep_margin_sum (s.engine.positions.map fun p => p.asset) s.engine hinv hm
  | estop =>
      exact emergencyCloseAll_margin_sum (s.engine.positions.map fun p => p.asset) s.engine
        hinv hm

/-- A run without duplicate-asset open requests keeps `marginUsed` equal
to the sum of open entry notionals. -/
theorem runSys_margin_sum (params : Params) : ∀ (ops : List Op) (s : SysState),
    EngineInv s.engine → s.engine.marginUsed = sumNotional s.engine.positions →
    noReplaceB params s ops = true →
    (runSys params s ops).1.engine.marginUsed =
      sumNotional (runSys params s ops).1.engine.positions := by
  intro ops
  induction ops with
  | nil =>
      intro s _ hm _
      simpa [runSys] using hm
  | cons op rest ih =>
      intro s hinv hm hnr
      unfold noReplaceB at hnr
      rw [Bool.and_eq_true] at hnr
      have hop : ∀ a side size, op = .openPos a side size →
          posGet s.engine.positions a = none := by
        intro a side size heq
        rw [heq] at hnr
        exact Option.isNone_iff_eq_none.mp hnr.1
      unfold runSys
      dsimp only
      exact ih (stepSys params s op).1 (stepSys_ok params s op hinv).1
        (stepSys_margin_sum params s op hinv hm hop) hnr.2

/-- Claim C3, amended: in every reachable state there is at most one open
position per asset; and along every run in which no open request targets
an asset that already has an open position, `marginUsed` equals exactly
the sum of the entry notionals of the currently open positions.  (The
counterexample shows the second conjunct fails without that proviso: a
duplicate-asset open silently replaces the position and leaks the old
notional into `marginUsed`.) -/
theorem c3_invariants_amended (params : Params) (c : ℚ) (ops : List Op) :
    ((runSys params (initSys c) ops).1.engine.positions.map fun p => p.asset).Nodup ∧
    (noReplaceB params (initSys c) ops = true →
      (runSys params (initSys c) ops).1.engine.marginUsed =
        sumNotional (runSys params (initSys c) ops).1.engine.positions) := by
  refine ⟨(runSys_ok params ops (initSys c) (initEngine_inv c)).1.1, ?_⟩
  intro hnr
  exact runSys_margin_sum params ops (initSys c) (initEngine_inv c)
    (by simp [initSys, initEngine, sumNotional]) hnr

/-- Claim C3 witness: the open/close scenario run has no duplicate-asset
open, and its final `marginUsed` equals the sum of open entry notionals
(both are zero after the close). -/
theorem c3_invariants_amended_witness :
    noReplaceB defaultParams (initSys 100000) scenario12Ops = true ∧
    (runSys defaultParams (initSys 100000) scenario12Ops).1.engine.marginUsed =
      sumNotional (runSys defaultParams (initSys 100000) scenario12Ops).1.engine.positions :=
  ⟨by decide, (c3_invariants_amended defaultParams 100000 scenario12Ops).2 (by decide)⟩

/-- If the leverage check yields a CRITICAL finding, `checkPositionRisk`
returns `false` — the "position should be blocked" verdict. -/
theorem checkPositionRisk_blocked {rp : RiskParams} {s : EngineState} {p : Position}
    {f : Finding} (h : checkLeverageRisk rp s = some f) (hc : f.severity = .CRITICAL) :
    checkPositionRisk rp s p = false := by
  unfold checkPositionRisk positionRisks
  have hmem : f ∈ ([checkPositionSizeRisk rp s p, checkConcentrationRisk rp s p,
      checkCorrelationRisk rp s p, checkLiquidityRisk rp s p,
      checkLeverageRisk rp s].filterMap id) :=
    List.mem_filterMap.mpr ⟨some f, by simp [h], rfl⟩
  have hany : (([checkPositionSizeRisk rp s p, checkConcentrationRisk rp s p,
      checkCorrelationRisk rp s p, checkLiquidityRisk rp s p,
      checkLeverageRisk rp s].filterMap id).any fun r => r.severity == Severity.CRITICAL) =
      true :=
    List.any_eq_true.mpr ⟨f, hmem, by simp [hc]⟩
  have hlen : 0 < ([checkPositionSizeRisk rp s p, checkConcentrationRisk rp s p,
      checkCorrelationRisk rp s p, checkLiquidityRisk rp s p,
      checkLeverageRisk rp s].filterMap id).length :=
    List.length_pos.mpr (List.ne_nil_of_mem hmem)
  rw [if_pos hlen, if_pos hany]

/-- Claim C2: in the reachable state `levState` the portfolio leverage
`totalValue / (totalValue - marginUsed) = 99459.55 / 9009.55 > 5` already
makes the leverage check CRITICAL, yet `openPosition` accepts the new ETH
position: the position is created, cash decreases, and the post-commit
`checkPositionRisk` verdict — the only place the CRITICAL finding is ever
evaluated, inside the `positionOpened` handler — is `false` ("blocked")
and is discarded by the source, with nothing rolled back. -/
theorem c2_critical_finding_does_not_block :
    checkLeverageRisk defaultRiskParams levState = some ⟨"LEVERAGE", .CRITICAL⟩ ∧
    (openPosition levParams levState "ETH" .long 10).2.isSome = true ∧
    ((openPosition levParams levState "ETH" .long 10).1.positions.map fun p => p.asset) =
      ["BTC", "ETH"] ∧
    (openPosition levParams levState "ETH" .long 10).1.cash < levState.cash ∧
    checkLeverageRisk defaultRiskParams (openPosition levParams levState "ETH" .long 10).1 =
      some ⟨"LEVERAGE", .CRITICAL⟩ ∧
    checkPositionRisk defaultRiskParams (openPosition levParams levState "ETH" .long 10).1
      ((openPosition levParams levState "ETH" .long 10).2.getD fallbackPosition) = false := by
  refine ⟨by decide, by decide, by decide, by decide, by decide, ?_⟩
  exact @checkPositionRisk_blocked defaultRiskParams
    (openPosition levParams levState "ETH" .long 10).1
    ((openPosition levParams levState "ETH" .long 10).2.getD fallbackPosition)
    ⟨"LEVERAGE", .CRITICAL⟩ (by decide) rfl

/-- The average of twenty equal values is that value. -/
theorem replicate20_mean (c : ℚ) :
    ((List.replicate 20 c).sum / ((List.replicate 20 c).length : ℚ)) = c := by
  rw [List.sum_replicate, List.length_replicate, nsmul_eq_mul]
  norm_num

/-- The last of twenty equal values. -/
theorem replicate20_getLastD (c d : ℚ) : (List.replicate 20 c).getLastD d = c := rfl

/-- On a history whose last twenty prices are all equal, the z-score
numerator and the standard deviation are both zero and the JavaScript
division yields `NaN`. -/
theorem zscore_allEqual (history : List ℚ) (c : ℚ)
    (hdrop : history.drop (history.length - 20) = List.replicate 20 c) :
    calculateZScore history = .nan := by
  have hlen20 := congrArg List.length hdrop
  rw [List.length_drop, List.length_replicate] at hlen20
  have hlen : ¬ history.length < 20 := by omega
  unfold calculateZScore
  rw [if_neg hlen]
  dsimp only
  rw [hdrop, replicate20_mean, replicate20_getLastD]
  have hmap : ((List.replicate 20 c).map fun v => (v - c) ^ 2) = List.replicate 20 0 := by
    rw [List.map_replicate]
    norm_num
  rw [hmap]
  have hvar : ((List.replicate 20 (0:ℚ)).sum / ((List.replicate 20 c).length : ℚ)) = 0 := by
    rw [List.sum_replicate, List.length_replicate]
    norm_num
  rw [hvar]
  simp [jsqrtQ, jdivR, sub_self, Real.sqrt_zero]

/-- Claim C10, counterexample: with twenty equal prices the standard
deviation is `0` and the z-score is the JavaScript `0 / 0 = NaN`, not the
neutral constant `0` the claim asserts. -/
theorem c10_zscore_constant_prices_counterexample :
    calculateZScore (List.replicate 20 (5:ℚ)) = .nan ∧
    ¬ calculateZScore (List.replicate 20 (5:ℚ)) = .fin 0 := by
  have h := zscore_allEqual (List.replicate 20 (5:ℚ)) 5 (by decide)
  refine ⟨h, ?_⟩
  rw [h]
  intro hcontra
  exact JR.noConfusion hcontra

/-- Claim C10, amended: the z-score degrades to the neutral constant `0`
exactly on histories of fewer than 20 samples; on a history of at least
20 samples whose last 20 prices are all equal it returns `NaN` (the
JavaScript `0 / 0`), not a neutral constant. -/
theorem c10_zscore_amended (history : List ℚ) (c : ℚ) :
    (history.length < 20 → calculateZScore history = .fin 0) ∧
    (history.drop (history.length - 20) = List.replicate 20 c →
      calculateZScore history = .nan) := by
  constructor
  · intro h
    unfold calculateZScore
    rw [if_pos h]
  · exact zscore_allEqual history c

/-- Claim C10 witness: the short-history case on three samples, and the
constant-history case on twenty equal prices. -/
theorem c10_zscore_amended_witness :
    ([(1:ℚ), 2, 3].length < 20 ∧ calculateZScore [(1:ℚ), 2, 3] = .fin 0) ∧
    ((List.replicate 20 (5:ℚ)).drop ((List.replicate 20 (5:ℚ)).length - 20) =
        List.replicate 20 (5:ℚ) ∧
      calculateZScore (List.replicate 20 (5:ℚ)) = .nan) :=
  ⟨⟨by decide, (c10_zscore_amended [1, 2, 3] 5).1 (by decide)⟩,
   ⟨by decide, (c10_zscore_amended (List.replicate 20 5) 5).2 (by decide)⟩⟩
